import Mathlib

/-!
Shallow embedding of the library-lending manager (`project4.py`).

The program keeps an insertion-ordered dictionary of books keyed by a unique
string id, a list of loan records, and persists both as a single JSON document.
We model:

* the ordered dictionary `self.books` as a `List Book` (Python dicts preserve
  insertion order; assignment to an existing key replaces in place, assignment
  to a fresh key appends);
* the JSON file as an optional `SavedData` snapshot carried in the state, so
  `save_data` is the state transformer writing the snapshot;
* `uuid.uuid4()` as a deterministic fresh-name supply: the state carries a
  counter `next_uuid`, and `mkId k` is the k-th generated id (the only property
  of uuid4 the program relies on is that generated ids collide neither with
  each other nor with previously existing ids);
* calendar dates as day numbers (`Nat`); the source stores `due_date` as an
  ISO `YYYY-MM-DD` string produced by `strftime` and compares dates after
  `fromisoformat`, a bijective round trip, so a day number is faithful;
* console output is dropped; the reported success/error conditions become
  explicit result values (`BorrowResult`, `ReturnResult`, the `Bool` returned
  by `delete_book`), and `search_books` / `generate_simple_report` return the
  data they print.
-/

namespace Library

structure Book where
  id : String
  title : String
  author : String
  copies : Int
deriving DecidableEq, Repr

structure LoanRecord where
  user_id : String
  book_id : String
  due_date : Nat
deriving DecidableEq, Repr

/-- The persisted JSON document: `{'books': {...}, 'borrowed_records': [...]}`.
`save_data` writes the book dict keyed by each book's own id, so the ordered
list of values is a faithful model of the `books` object. -/
structure SavedData where
  books : List Book
  borrowed_records : List LoanRecord
deriving DecidableEq, Repr

structure LibraryManager where
  books : List Book
  borrowed_records : List LoanRecord
  data_file : Option SavedData
  next_uuid : Nat
deriving DecidableEq, Repr

/-- The k-th id produced by the fresh-id supply modelling `uuid.uuid4()`. -/
def mkId (k : Nat) : String :=
  ⟨'u' :: List.replicate k 'x'⟩

/-- `book_id in self.books` on the book dict. -/
def hasBookId (books : List Book) (book_id : String) : Bool :=
  books.any (fun b => b.id == book_id)

/-- `self.books[b.id] = b` on the ordered dict: replace in place if the key
exists, else append. -/
def dictInsert (books : List Book) (b : Book) : List Book :=
  if hasBookId books b.id then
    books.map (fun x => if x.id == b.id then b else x)
  else
    books ++ [b]

/-- `get_borrowed_count`: `sum(1 for record in self.borrowed_records if
record['book_id'] == book_id)`. -/
def LibraryManager.get_borrowed_count (s : LibraryManager) (book_id : String) : Nat :=
  s.borrowed_records.countP (fun r => r.book_id == book_id)

/-- The three sample books seeded by `load_data` when no data file exists. -/
def initial_books : List Book :=
  [ ⟨"1", "The Great Gatsby", "F. Scott Fitzgerald", 3⟩,
    ⟨"2", "1984", "George Orwell", 5⟩,
    ⟨"3", "Moby Dick", "Herman Melville", 1⟩ ]

/-- `load_data`: with a file present, re-insert each stored book into the
(initially empty) book dict keyed by its id and take the record list verbatim;
with no file, seed the three sample books. -/
def load_data (file : Option SavedData) : LibraryManager :=
  match file with
  | some d =>
      { books := d.books.foldl dictInsert [],
        borrowed_records := d.borrowed_records,
        data_file := file,
        next_uuid := 0 }
  | none =>
      { books := initial_books,
        borrowed_records := [],
        data_file := none,
        next_uuid := 0 }

/-- The fresh store of `LibraryManager.__init__` when no data file exists. -/
def seeded : LibraryManager :=
  load_data none

/-- `save_data`: serialize the full book dict and record list to the file. -/
def LibraryManager.save_data (s : LibraryManager) : LibraryManager :=
  { s with data_file := some ⟨s.books, s.borrowed_records⟩ }

/-- `add_book`: build a `Book` with a fresh id, insert it into the dict,
persist, and return it. No validation of `copies` happens here. -/
def LibraryManager.add_book (s : LibraryManager) (title author : String) (copies : Int) :
    LibraryManager × Book :=
  let new_book : Book := ⟨mkId s.next_uuid, title, author, copies⟩
  let s' : LibraryManager :=
    { s with books := dictInsert s.books new_book, next_uuid := s.next_uuid + 1 }
  (s'.save_data, new_book)

/-- `delete_book`: unknown id, or any copy currently borrowed, fails with
`false` and no mutation; otherwise `del self.books[book_id]`, persist, `true`. -/
def LibraryManager.delete_book (s : LibraryManager) (book_id : String) :
    LibraryManager × Bool :=
  if hasBookId s.books book_id then
    if 0 < s.get_borrowed_count book_id then
      (s, false)
    else
      (LibraryManager.save_data { s with books := s.books.filter (fun b => !(b.id == book_id)) },
       true)
  else
    (s, false)

inductive BorrowResult where
  | noUser
  | limitReached
  | notFound
  | noCopies
  | success
deriving DecidableEq, Repr

/-- `borrow_book`: bail out on `user_id is None`; refuse at ≥ 3 records for
this user; refuse an unknown book id; with a positive number of available
copies append `{'user_id', 'book_id', 'due_date': today + 7}` and persist,
otherwise refuse. -/
def LibraryManager.borrow_book (s : LibraryManager) (book_id : String)
    (user_id : Option String) (today : Nat) : LibraryManager × BorrowResult :=
  match user_id with
  | none => (s, .noUser)
  | some uid =>
    if 3 ≤ s.borrowed_records.countP (fun r => r.user_id == uid) then
      (s, .limitReached)
    else
      match s.books.find? (fun b => b.id == book_id) with
      | none => (s, .notFound)
      | some book_to_borrow =>
        if 0 < book_to_borrow.copies - (s.get_borrowed_count book_id : Int) then
          let new_record : LoanRecord := ⟨uid, book_id, today + 7⟩
          (LibraryManager.save_data
            { s with borrowed_records := s.borrowed_records ++ [new_record] },
           .success)
        else
          (s, .noCopies)

inductive ReturnResult where
  | noUser
  | noRecord
  | success
deriving DecidableEq, Repr

/-- `return_book`: bail out on `user_id is None`; find the first record
matching both user and book; if none report the not-found condition, else
`self.borrowed_records.remove(record_to_remove)` and persist. -/
def LibraryManager.return_book (s : LibraryManager) (book_id : String)
    (user_id : Option String) : LibraryManager × ReturnResult :=
  match user_id with
  | none => (s, .noUser)
  | some uid =>
    match s.borrowed_records.find? (fun r => r.user_id == uid && r.book_id == book_id) with
    | none => (s, .noRecord)
    | some record_to_remove =>
      (LibraryManager.save_data
        { s with borrowed_records := s.borrowed_records.erase record_to_remove },
       .success)

/-- `needle.data` occurs contiguously inside `hay.data`: Python's `in` on
strings. -/
def leadsWith : List Char → List Char → Bool
  | [], _ => true
  | _ :: _, [] => false
  | a :: as, b :: bs => a == b && leadsWith as bs

def occursIn (needle hay : List Char) : Bool :=
  leadsWith needle hay ||
    match hay with
    | [] => false
    | _ :: t => occursIn needle t

/-- The loop condition of `search_books`:
`query in book.title.lower() or query in book.author.lower()` with `query`
already lowered. -/
def matchesQuery (q : String) (b : Book) : Bool :=
  occursIn q.data b.title.toLower.data || occursIn q.data b.author.toLower.data

/-- The result-accumulating loop of `search_books` over the book dict. -/
def searchLoop (s : LibraryManager) (q : String) : List Book → List (Book × Int)
  | [] => []
  | b :: rest =>
    if matchesQuery q b then
      (b, b.copies - (s.get_borrowed_count b.id : Int)) :: searchLoop s q rest
    else
      searchLoop s q rest

/-- `search_books`: lower the query, scan the dict in order, and collect each
matching book paired with its computed availability. -/
def LibraryManager.search_books (s : LibraryManager) (query : String) :
    List (Book × Int) :=
  searchLoop s query.toLower s.books

structure Report where
  total_unique_books : Nat
  total_copies : Int
  total_issued : Nat
  overdue_count : Nat
deriving DecidableEq, Repr

/-- `generate_simple_report`: distinct titles, summed copies, active loans,
and loans whose due date is strictly before today. -/
def LibraryManager.generate_simple_report (s : LibraryManager) (today : Nat) : Report :=
  { total_unique_books := s.books.length,
    total_copies := (s.books.map (fun b => b.copies)).sum,
    total_issued := s.borrowed_records.length,
    overdue_count := s.borrowed_records.countP (fun r => decide (r.due_date < today)) }

/-- The copies-reading loop of `staff_add_book_menu` on the successively
parsed numeric inputs: re-prompt while `copies <= 0`, accept the first
positive value. -/
def firstValidCopies : List Int → Option Int
  | [] => none
  | c :: rest => if c ≤ 0 then firstValidCopies rest else some c

/-- `staff_add_book_menu`: read inputs until one is a positive number of
copies, then call `add_book` with it; if no input is ever accepted the loop
never reaches `add_book`, so the store is untouched. -/
def staff_add_book_menu (s : LibraryManager) (title author : String)
    (inputs : List Int) : LibraryManager :=
  match firstValidCopies inputs with
  | none => s
  | some copies => (s.add_book title author copies).1

/-- The `LibraryStore` operations driven by the menus.  `addBook` carries the
spec's copy count (a non-negative integer); `borrowBook` and
`generateReport` carry the current day. -/
inductive Op where
  | addBook (title author : String) (copies : Nat)
  | deleteBook (id : String)
  | borrowBook (id : String) (user : Option String) (today : Nat)
  | returnBook (id : String) (user : Option String)
  | searchBooks (query : String)
  | generateReport (today : Nat)
deriving DecidableEq, Repr

def step (s : LibraryManager) : Op → LibraryManager
  | .addBook title author copies => (s.add_book title author (copies : Int)).1
  | .deleteBook id => (s.delete_book id).1
  | .borrowBook id user today => (s.borrow_book id user today).1
  | .returnBook id user => (s.return_book id user).1
  | .searchBooks _ => s
  | .generateReport _ => s

def run (s : LibraryManager) (ops : List Op) : LibraryManager :=
  ops.foldl step s

/-- An id the fresh-name supply with counter `n` can no longer produce:
either an id it already produced, or an id not of its shape (the seeded ids
`"1"`, `"2"`, `"3"` do not start with `'u'`). -/
def idFresh (n : Nat) (id : String) : Prop :=
  (∃ k, k < n ∧ id = mkId k) ∨ id.data.head? ≠ some 'u'

/-- The state invariant maintained by every `LibraryStore` operation:
book ids are pairwise distinct and out of reach of the fresh-id supply, every
loan record references a catalogued book, no book has more loan records than
copies, and no user holds more than three loans. -/
structure Inv (s : LibraryManager) : Prop where
  fresh : ∀ b ∈ s.books, idFresh s.next_uuid b.id
  recBook : ∀ r ∈ s.borrowed_records, ∃ b ∈ s.books, b.id = r.book_id
  countLe : ∀ b ∈ s.books, (s.get_borrowed_count b.id : Int) ≤ b.copies
  userCap : ∀ u : String, s.borrowed_records.countP (fun r => r.user_id == u) ≤ 3
  nodupIds : (s.books.map Book.id).Nodup

theorem mkId_inj {j k : Nat} (h : mkId j = mkId k) : j = k := by
  have hl := congrArg (fun s : String => s.data.length) h
  simpa [mkId] using hl

theorem not_idFresh_mkId (n : Nat) : ¬ idFresh n (mkId n) := by
  rintro (⟨k, hk, he⟩ | hh)
  · exact absurd (mkId_inj he) (by omega)
  · exact hh rfl

theorem idFresh_mono {n m : Nat} (h : n ≤ m) (id : String) :
    idFresh n id → idFresh m id := by
  rintro (⟨k, hk, he⟩ | hh)
  · exact Or.inl ⟨k, by omega, he⟩
  · exact Or.inr hh

theorem hasBookId_iff (books : List Book) (id : String) :
    hasBookId books id = true ↔ ∃ b ∈ books, b.id = id := by
  simp [hasBookId]

theorem hasBookId_eq_false (books : List Book) (id : String) :
    hasBookId books id = false ↔ ∀ b ∈ books, b.id ≠ id := by
  rw [← Bool.not_eq_true, hasBookId_iff]
  push_neg
  rfl

theorem hasBookId_mkId_eq_false (s : LibraryManager)
    (h : ∀ b ∈ s.books, idFresh s.next_uuid b.id) :
    hasBookId s.books (mkId s.next_uuid) = false := by
  rw [hasBookId_eq_false]
  intro b hb he
  exact not_idFresh_mkId s.next_uuid (he ▸ h b hb)

theorem dictInsert_fresh (books : List Book) (b : Book)
    (h : hasBookId books b.id = false) :
    dictInsert books b = books ++ [b] := by
  simp [dictInsert, h]

theorem mem_dictInsert {books : List Book} {nb b : Book}
    (h : b ∈ dictInsert books nb) : b ∈ books ∨ b = nb := by
  unfold dictInsert at h
  split at h
  · rcases List.mem_map.mp h with ⟨x, hx, he⟩
    by_cases hid : x.id == nb.id
    · simp [hid] at he
      exact Or.inr he.symm
    · simp [hid] at he
      exact Or.inl (he ▸ hx)
  · rcases List.mem_append.mp h with hx | hx
    · exact Or.inl hx
    · simp at hx
      exact Or.inr hx

theorem erase_of_find?_eq_some {α : Type} [DecidableEq α] {p : α → Bool}
    {l : List α} {r : α} (h : l.find? p = some r) :
    l.erase r = l.eraseP p := by
  induction l with
  | nil => simp at h
  | cons a t ih =>
    by_cases hpa : p a
    · rw [List.find?_cons_of_pos t hpa] at h
      injection h with h
      subst h
      rw [List.erase_cons_head, List.eraseP_cons_of_pos hpa]
    · rw [List.find?_cons_of_neg t hpa] at h
      have hne : ¬(a == r) := by
        rintro he
        exact hpa ((beq_iff_eq.mp he) ▸ List.find?_some h)
      rw [List.erase_cons_tail hne, List.eraseP_cons_of_neg hpa, ih h]

theorem countP_of_find?_eq_some {α : Type} {p q : α → Bool}
    {l : List α} {r : α} (h : l.find? p = some r) :
    l.countP q = (l.eraseP p).countP q + (if q r then 1 else 0) := by
  induction l with
  | nil => simp at h
  | cons a t ih =>
    by_cases hpa : p a
    · rw [List.find?_cons_of_pos t hpa] at h
      injection h with h
      subst h
      rw [List.eraseP_cons_of_pos hpa, List.countP_cons]
    · rw [List.find?_cons_of_neg t hpa] at h
      rw [List.eraseP_cons_of_neg hpa, List.countP_cons, List.countP_cons, ih h]
      omega

theorem foldl_dictInsert (l acc : List Book)
    (hfr : ∀ b ∈ l, hasBookId acc b.id = false)
    (hnd : (l.map Book.id).Nodup) :
    l.foldl dictInsert acc = acc ++ l := by
  induction l generalizing acc with
  | nil => simp
  | cons b t ih =>
    have hb : hasBookId acc b.id = false := hfr b (by simp)
    have hstep : dictInsert acc b = acc ++ [b] := dictInsert_fresh acc b hb
    simp only [List.foldl_cons, hstep]
    rw [ih (acc ++ [b]) ?_ ?_]
    · simp
    · intro x hx
      rw [hasBookId_eq_false]
      intro y hy
      rcases List.mem_append.mp hy with hy | hy
      · exact (hasBookId_eq_false acc x.id).mp (hfr x (by simp [hx])) y hy
      · simp at hy
        subst hy
        simp only [List.map_cons, List.nodup_cons] at hnd
        intro he
        exact hnd.1 (he ▸ List.mem_map_of_mem Book.id hx)
    · simp only [List.map_cons, List.nodup_cons] at hnd
      exact hnd.2

theorem delete_book_cases (s : LibraryManager) (book_id : String) :
    (hasBookId s.books book_id = false ∧ s.delete_book book_id = (s, false)) ∨
    (hasBookId s.books book_id = true ∧ 0 < s.get_borrowed_count book_id ∧
      s.delete_book book_id = (s, false)) ∨
    (hasBookId s.books book_id = true ∧ s.get_borrowed_count book_id = 0 ∧
      s.delete_book book_id =
        ({ s with
            books := s.books.filter (fun b => !(b.id == book_id)),
            data_file := some ⟨s.books.filter (fun b => !(b.id == book_id)),
                               s.borrowed_records⟩ },
         true)) := by
  by_cases hmem : hasBookId s.books book_id
  · by_cases hcnt : 0 < s.get_borrowed_count book_id
    · exact Or.inr (Or.inl ⟨hmem, hcnt, by simp [LibraryManager.delete_book, hmem, hcnt]⟩)
    · refine Or.inr (Or.inr ⟨hmem, by omega, ?_⟩)
      simp [LibraryManager.delete_book, hmem, hcnt, LibraryManager.save_data]
  · exact Or.inl ⟨by simpa using hmem, by simp [LibraryManager.delete_book, hmem]⟩

theorem borrow_book_cases (s : LibraryManager) (book_id uid : String) (today : Nat) :
    (3 ≤ s.borrowed_records.countP (fun r => r.user_id == uid) ∧
      s.borrow_book book_id (some uid) today = (s, .limitReached)) ∨
    (¬ 3 ≤ s.borrowed_records.countP (fun r => r.user_id == uid) ∧
      s.books.find? (fun b => b.id == book_id) = none ∧
      s.borrow_book book_id (some uid) today = (s, .notFound)) ∨
    (∃ book, ¬ 3 ≤ s.borrowed_records.countP (fun r => r.user_id == uid) ∧
      s.books.find? (fun b => b.id == book_id) = some book ∧
      ((0 < book.copies - (s.get_borrowed_count book_id : Int) ∧
        s.borrow_book book_id (some uid) today =
          ({ s with
              borrowed_records := s.borrowed_records ++ [⟨uid, book_id, today + 7⟩],
              data_file := some ⟨s.books,
                                 s.borrowed_records ++ [⟨uid, book_id, today + 7⟩]⟩ },
           .success)) ∨
       (¬ 0 < book.copies - (s.get_borrowed_count book_id : Int) ∧
        s.borrow_book book_id (some uid) today = (s, .noCopies)))) := by
  by_cases hlim : 3 ≤ s.borrowed_records.countP (fun r => r.user_id == uid)
  · exact Or.inl ⟨hlim, by simp [LibraryManager.borrow_book, hlim]⟩
  · cases hfind : s.books.find? (fun b => b.id == book_id) with
    | none =>
        exact Or.inr (Or.inl ⟨hlim, rfl, by simp [LibraryManager.borrow_book, hlim, hfind]⟩)
    | some book =>
        refine Or.inr (Or.inr ⟨book, hlim, rfl, ?_⟩)
        by_cases hav : 0 < book.copies - (s.get_borrowed_count book_id : Int)
        · refine Or.inl ⟨hav, ?_⟩
          simp [LibraryManager.borrow_book, hlim, hfind, hav, LibraryManager.save_data]
        · exact Or.inr ⟨hav, by simp [LibraryManager.borrow_book, hlim, hfind, hav]⟩

theorem return_book_cases (s : LibraryManager) (book_id uid : String) :
    (s.borrowed_records.find? (fun r => r.user_id == uid && r.book_id == book_id) = none ∧
      s.return_book book_id (some uid) = (s, .noRecord)) ∨
    (∃ r, s.borrowed_records.find? (fun r => r.user_id == uid && r.book_id == book_id) = some r ∧
      s.return_book book_id (some uid) =
        ({ s with
            borrowed_records := s.borrowed_records.erase r,
            data_file := some ⟨s.books, s.borrowed_records.erase r⟩ },
         .success)) := by
  cases hfind : s.borrowed_records.find? (fun r => r.user_id == uid && r.book_id == book_id) with
  | none => exact Or.inl ⟨rfl, by simp [LibraryManager.return_book, hfind]⟩
  | some r =>
      refine Or.inr ⟨r, rfl, ?_⟩
      simp [LibraryManager.return_book, hfind, LibraryManager.save_data]

theorem inv_add_book (s : LibraryManager) (h : Inv s) (title author : String)
    (copies : Int) (hc : 0 ≤ copies) : Inv (s.add_book title author copies).1 := by
  have hfree : hasBookId s.books (mkId s.next_uuid) = false :=
    hasBookId_mkId_eq_false s h.fresh
  have hins : dictInsert s.books ⟨mkId s.next_uuid, title, author, copies⟩
      = s.books ++ [⟨mkId s.next_uuid, title, author, copies⟩] :=
    dictInsert_fresh _ _ hfree
  have hshape : (s.add_book title author copies).1 =
      { books := s.books ++ [⟨mkId s.next_uuid, title, author, copies⟩],
        borrowed_records := s.borrowed_records,
        data_file := some ⟨s.books ++ [⟨mkId s.next_uuid, title, author, copies⟩],
                           s.borrowed_records⟩,
        next_uuid := s.next_uuid + 1 } := by
    simp [LibraryManager.add_book, LibraryManager.save_data, hins]
  rw [hshape]
  have hcount0 : s.borrowed_records.countP (fun r => r.book_id == mkId s.next_uuid) = 0 := by
    rw [List.countP_eq_zero]
    intro r hr hmatch
    rcases h.recBook r hr with ⟨b', hb', hbid⟩
    have hbeq : b'.id = mkId s.next_uuid := by
      rw [hbid]
      exact beq_iff_eq.mp hmatch
    exact not_idFresh_mkId s.next_uuid (hbeq ▸ h.fresh b' hb')
  refine ⟨?_, ?_, ?_, ?_, ?_⟩
  · intro b hb
    rcases List.mem_append.mp hb with hb | hb
    · exact idFresh_mono (Nat.le_succ _) _ (h.fresh b hb)
    · simp only [List.mem_singleton] at hb
      subst hb
      exact Or.inl ⟨s.next_uuid, Nat.lt_succ_self _, rfl⟩
  · intro r hr
    rcases h.recBook r hr with ⟨b, hb, hbid⟩
    exact ⟨b, List.mem_append_left _ hb, hbid⟩
  · intro b hb
    rcases List.mem_append.mp hb with hb | hb
    · exact h.countLe b hb
    · simp only [List.mem_singleton] at hb
      subst hb
      show (s.borrowed_records.countP (fun r => r.book_id == mkId s.next_uuid) : Int) ≤ copies
      rw [hcount0]
      exact hc
  · exact h.userCap
  · rw [List.map_append, List.nodup_append]
    refine ⟨h.nodupIds, by simp, ?_⟩
    intro x hx hx'
    simp only [List.map_cons, List.map_nil, List.mem_singleton] at hx'
    subst hx'
    rcases List.mem_map.mp hx with ⟨b, hb, hbid⟩
    exact not_idFresh_mkId _ (hbid ▸ h.fresh b hb)

theorem inv_delete_book (s : LibraryManager) (h : Inv s) (book_id : String) :
    Inv (s.delete_book book_id).1 := by
  rcases delete_book_cases s book_id with ⟨_, he⟩ | ⟨_, _, he⟩ | ⟨_, hcnt, he⟩
  · rw [he]; exact h
  · rw [he]; exact h
  · rw [he]
    refine ⟨?_, ?_, ?_, ?_, ?_⟩
    · intro b hb
      exact h.fresh b (List.mem_filter.mp hb).1
    · intro r hr
      rcases h.recBook r hr with ⟨b, hb, hbid⟩
      refine ⟨b, List.mem_filter.mpr ⟨hb, ?_⟩, hbid⟩
      simp only [Bool.not_eq_true', beq_eq_false_iff_ne, ne_eq]
      intro heq
      have hpos : 0 < s.get_borrowed_count book_id := by
        apply List.countP_pos_iff.mpr
        exact ⟨r, hr, by simp [← hbid, heq]⟩
      omega
    · intro b hb
      exact h.countLe b (List.mem_filter.mp hb).1
    · exact h.userCap
    · exact List.Nodup.sublist (List.Sublist.map _ (List.filter_sublist _)) h.nodupIds

theorem inv_borrow_book (s : LibraryManager) (h : Inv s) (book_id : String)
    (user_id : Option String) (today : Nat) :
    Inv (s.borrow_book book_id user_id today).1 := by
  cases user_id with
  | none => exact h
  | some uid =>
    rcases borrow_book_cases s book_id uid today with
      ⟨_, he⟩ | ⟨_, _, he⟩ | ⟨book, hlim, hfind, ⟨hav, he⟩ | ⟨_, he⟩⟩
    · rw [he]; exact h
    · rw [he]; exact h
    · rw [he]
      have hbook_mem : book ∈ s.books := List.mem_of_find?_eq_some hfind
      have hbook_id : book.id = book_id := by simpa using List.find?_some hfind
      refine ⟨?_, ?_, ?_, ?_, ?_⟩
      · intro b hb
        exact h.fresh b hb
      · intro r hr
        rcases List.mem_append.mp hr with hr | hr
        · exact h.recBook r hr
        · simp only [List.mem_singleton] at hr
          subst hr
          exact ⟨book, hbook_mem, hbook_id⟩
      · intro b hb
        show ((s.borrowed_records ++ [(⟨uid, book_id, today + 7⟩ : LoanRecord)]).countP
            (fun r => r.book_id == b.id) : Int) ≤ b.copies
        rw [List.countP_append]
        by_cases hid : b.id = book_id
        · have hb_eq : b = book :=
            List.inj_on_of_nodup_map h.nodupIds hb hbook_mem (by rw [hid, hbook_id])
          have h1 : ([(⟨uid, book_id, today + 7⟩ : LoanRecord)]).countP
              (fun r => r.book_id == b.id) = 1 := by
            simp [hid]
          rw [h1]
          have hcc : s.borrowed_records.countP (fun r => r.book_id == b.id)
              = s.get_borrowed_count book_id := by
            rw [hid]
            rfl
          rw [hcc]
          rw [hb_eq]
          omega
        · have h1 : ([(⟨uid, book_id, today + 7⟩ : LoanRecord)]).countP
              (fun r => r.book_id == b.id) = 0 := by
            simp
            intro he'
            exact absurd he'.symm hid
          rw [h1]
          have hcl := h.countLe b hb
          have h2 : s.get_borrowed_count b.id
              = s.borrowed_records.countP (fun r => r.book_id == b.id) := rfl
          rw [h2] at hcl
          omega
      · intro u
        show (s.borrowed_records ++ [(⟨uid, book_id, today + 7⟩ : LoanRecord)]).countP
            (fun r => r.user_id == u) ≤ 3
        rw [List.countP_append]
        by_cases hu : uid = u
        · have h1 : ([(⟨uid, book_id, today + 7⟩ : LoanRecord)]).countP
              (fun r => r.user_id == u) = 1 := by
            simp [hu]
          rw [h1]
          subst hu
          omega
        · have h1 : ([(⟨uid, book_id, today + 7⟩ : LoanRecord)]).countP
              (fun r => r.user_id == u) = 0 := by
            simp [hu]
          rw [h1]
          have := h.userCap u
          omega
      · exact h.nodupIds
    · rw [he]
      exact h

theorem inv_return_book (s : LibraryManager) (h : Inv s) (book_id : String)
    (user_id : Option String) : Inv (s.return_book book_id user_id).1 := by
  cases user_id with
  | none => exact h
  | some uid =>
    rcases return_book_cases s book_id uid with ⟨_, he⟩ | ⟨r, hfind, he⟩
    · rw [he]; exact h
    · rw [he]
      have hsub : (s.borrowed_records.erase r).Sublist s.borrowed_records :=
        List.erase_sublist r s.borrowed_records
      refine ⟨h.fresh, ?_, ?_, ?_, h.nodupIds⟩
      · intro r' hr'
        exact h.recBook r' (hsub.subset hr')
      · intro b hb
        have h1 := h.countLe b hb
        have h2 := List.Sublist.countP_le (fun r => r.book_id == b.id) hsub
        show ((s.borrowed_records.erase r).countP (fun r => r.book_id == b.id) : Int) ≤ b.copies
        have h3 : ((s.borrowed_records.erase r).countP (fun r => r.book_id == b.id) : Int)
            ≤ (s.borrowed_records.countP (fun r => r.book_id == b.id) : Int) := by
          exact_mod_cast h2
        exact le_trans h3 h1
      · intro u
        exact le_trans (List.Sublist.countP_le _ hsub) (h.userCap u)

theorem inv_step (s : LibraryManager) (h : Inv s) (op : Op) : Inv (step s op) := by
  cases op with
  | addBook t a c => exact inv_add_book s h t a c (Int.natCast_nonneg c)
  | deleteBook id => exact inv_delete_book s h id
  | borrowBook id u today => exact inv_borrow_book s h id u today
  | returnBook id u => exact inv_return_book s h id u
  | searchBooks q => exact h
  | generateReport t => exact h

theorem inv_run (s : LibraryManager) (h : Inv s) (ops : List Op) : Inv (run s ops) := by
  induction ops generalizing s with
  | nil => exact h
  | cons op rest ih => exact ih (step s op) (inv_step s h op)

theorem inv_seeded : Inv seeded := by
  refine ⟨?_, ?_, ?_, ?_, ?_⟩
  · intro b hb
    simp only [seeded, load_data, initial_books, List.mem_cons, List.not_mem_nil,
      or_false] at hb
    rcases hb with rfl | rfl | rfl <;> exact Or.inr (by decide)
  · intro r hr
    simp [seeded, load_data] at hr
  · intro b hb
    show ((List.countP _ [] : Nat) : Int) ≤ b.copies
    simp only [List.countP_nil, Nat.cast_zero]
    simp only [seeded, load_data, initial_books, List.mem_cons, List.not_mem_nil,
      or_false] at hb
    rcases hb with rfl | rfl | rfl <;> decide
  · intro u
    show List.countP _ [] ≤ 3
    simp
  · decide

theorem leadsWith_iff (n h : List Char) : leadsWith n h = true ↔ n <+: h := by
  induction n generalizing h with
  | nil => simp [leadsWith, List.nil_prefix]
  | cons a as ih =>
    cases h with
    | nil => simp [leadsWith]
    | cons b bs => simp [leadsWith, List.cons_prefix_cons, ih, Bool.and_eq_true, beq_iff_eq]

theorem occursIn_iff (n h : List Char) : occursIn n h = true ↔ n <:+: h := by
  induction h with
  | nil =>
    rw [occursIn]
    simp [leadsWith_iff, List.infix_nil, List.prefix_nil]
  | cons a t ih =>
    rw [occursIn]
    simp [leadsWith_iff, ih, List.infix_cons_iff]

theorem searchLoop_eq (s : LibraryManager) (q : String) (l : List Book) :
    searchLoop s q l = (l.filter (fun b => matchesQuery q b)).map
      (fun b => (b, b.copies - (s.get_borrowed_count b.id : Int))) := by
  induction l with
  | nil => rfl
  | cons b t ih =>
    by_cases hm : matchesQuery q b
    · simp [searchLoop, hm, ih, List.filter_cons]
    · simp [searchLoop, hm, ih, List.filter_cons]

/-- **C1.** `borrow_book(book_id, user_id)` fails — reports a condition and
leaves the state untouched — exactly when the user already holds at least 3
loans, or the book id is unknown, or the book's availability is 0; in every
other case it appends exactly one loan record `{user_id, book_id, due_date =
today + 7}` and persists.  No same-user/same-book dedup appears among the
failure conditions, so a repeat borrow by the same user succeeds until the
3-loan cap.  The two hypotheses are the state invariants proved to hold after
any operation sequence (`inv_run`): distinct book ids and
`borrowedCount ≤ copies`. -/
theorem claim1_borrow_book_characterisation (s : LibraryManager) (bid uid : String)
    (today : Nat) (hnodup : (s.books.map Book.id).Nodup)
    (hinv : ∀ b ∈ s.books, (s.get_borrowed_count b.id : Int) ≤ b.copies) :
    ((s.borrow_book bid (some uid) today).2 = BorrowResult.success ↔
      ¬(3 ≤ s.borrowed_records.countP (fun r => r.user_id == uid) ∨
        (∀ b ∈ s.books, b.id ≠ bid) ∨
        (∃ b ∈ s.books, b.id = bid ∧ b.copies - (s.get_borrowed_count bid : Int) = 0))) ∧
    ((s.borrow_book bid (some uid) today).2 ≠ BorrowResult.success →
      (s.borrow_book bid (some uid) today).1 = s) ∧
    ((s.borrow_book bid (some uid) today).2 = BorrowResult.success →
      (s.borrow_book bid (some uid) today).1.books = s.books ∧
      (s.borrow_book bid (some uid) today).1.borrowed_records
        = s.borrowed_records ++ [⟨uid, bid, today + 7⟩] ∧
      (s.borrow_book bid (some uid) today).1.data_file
        = some ⟨s.books, s.borrowed_records ++ [⟨uid, bid, today + 7⟩]⟩) := by
  rcases borrow_book_cases s bid uid today with
    ⟨hlim, he⟩ | ⟨hlim, hfind, he⟩ | ⟨book, hlim, hfind, ⟨hav, he⟩ | ⟨hav, he⟩⟩
  · rw [he]
    refine ⟨iff_of_false (by simp) ?_, fun _ => rfl, fun hc => absurd hc (by simp)⟩
    intro hno
    exact hno (Or.inl hlim)
  · rw [he]
    refine ⟨iff_of_false (by simp) ?_, fun _ => rfl, fun hc => absurd hc (by simp)⟩
    intro hno
    refine hno (Or.inr (Or.inl ?_))
    intro b hb
    have := List.find?_eq_none.mp hfind b hb
    simpa using this
  · rw [he]
    have hbook_mem : book ∈ s.books := List.mem_of_find?_eq_some hfind
    have hbook_id : book.id = bid := by simpa using List.find?_some hfind
    refine ⟨iff_of_true rfl ?_, fun hc => absurd rfl hc, fun _ => ⟨rfl, rfl, rfl⟩⟩
    rintro (hl | hunk | ⟨b, hb, hbid, hzero⟩)
    · exact hlim hl
    · exact hunk book hbook_mem hbook_id
    · have hb_eq : b = book :=
        List.inj_on_of_nodup_map hnodup hb hbook_mem (by rw [hbid, hbook_id])
      rw [hb_eq] at hzero
      omega
  · rw [he]
    have hbook_mem : book ∈ s.books := List.mem_of_find?_eq_some hfind
    have hbook_id : book.id = bid := by simpa using List.find?_some hfind
    refine ⟨iff_of_false (by simp) ?_, fun _ => rfl, fun hc => absurd hc (by simp)⟩
    intro hno
    refine hno (Or.inr (Or.inr ⟨book, hbook_mem, hbook_id, ?_⟩))
    have hcl := hinv book hbook_mem
    rw [hbook_id] at hcl
    omega

theorem claim1_witness :
    (seeded.borrow_book "1" (some "u1") 0).2 = BorrowResult.success := by
  have h := claim1_borrow_book_characterisation seeded "1" "u1" 0 (by decide) (by decide)
  exact h.1.mpr (by decide)

/-- **C2.** For every book in the catalog,
`0 ≤ borrowedCount(book) ≤ book.copies` holds after any sequence of
`LibraryStore` operations (addBook, deleteBook, borrowBook, returnBook,
searchBooks, generateReport) starting from the seeded initial state, where
`borrowedCount(book)` counts the loan records whose `book_id` equals
`book.id`. -/
theorem claim2_borrowed_count_bounds (ops : List Op) :
    ∀ b ∈ (run seeded ops).books,
      0 ≤ ((run seeded ops).get_borrowed_count b.id : Int) ∧
      ((run seeded ops).get_borrowed_count b.id : Int) ≤ b.copies := by
  intro b hb
  exact ⟨Int.natCast_nonneg _, (inv_run seeded inv_seeded ops).countLe b hb⟩

theorem claim2_witness :
    0 ≤ ((run seeded [Op.borrowBook "1" (some "u1") 0]).get_borrowed_count "1" : Int) ∧
    ((run seeded [Op.borrowBook "1" (some "u1") 0]).get_borrowed_count "1" : Int) ≤ 3 := by
  exact claim2_borrowed_count_bounds [Op.borrowBook "1" (some "u1") 0]
    ⟨"1", "The Great Gatsby", "F. Scott Fitzgerald", 3⟩ (by decide)

/-- **C3.** `delete_book(id)` returns `false` with the catalog and the
loan-record list completely unchanged whenever `id` is unknown or the book has
a positive borrowed count; otherwise it removes exactly the entries with that
id from the catalog, keeps the loan records, persists, and returns `true`. -/
theorem claim3_delete_book (s : LibraryManager) (bid : String) :
    ((s.delete_book bid).2 = false ↔
      (∀ b ∈ s.books, b.id ≠ bid) ∨ 0 < s.get_borrowed_count bid) ∧
    ((s.delete_book bid).2 = false → (s.delete_book bid).1 = s) ∧
    ((s.delete_book bid).2 = true →
      (s.delete_book bid).1.books = s.books.filter (fun b => !(b.id == bid)) ∧
      (s.delete_book bid).1.borrowed_records = s.borrowed_records ∧
      (s.delete_book bid).1.data_file
        = some ⟨s.books.filter (fun b => !(b.id == bid)), s.borrowed_records⟩) := by
  rcases delete_book_cases s bid with ⟨hmem, he⟩ | ⟨hmem, hcnt, he⟩ | ⟨hmem, hcnt, he⟩
  · rw [he]
    refine ⟨iff_of_true rfl (Or.inl ?_), fun _ => rfl, fun hc => absurd hc (by simp)⟩
    exact (hasBookId_eq_false s.books bid).mp hmem
  · rw [he]
    exact ⟨iff_of_true rfl (Or.inr hcnt), fun _ => rfl, fun hc => absurd hc (by simp)⟩
  · rw [he]
    refine ⟨iff_of_false (by simp) ?_, fun hc => absurd hc (by simp),
      fun _ => ⟨rfl, rfl, rfl⟩⟩
    rintro (hunk | hpos)
    · rcases (hasBookId_iff s.books bid).mp hmem with ⟨b, hb, hbid⟩
      exact hunk b hb hbid
    · omega

theorem claim3_witness :
    (seeded.delete_book "3").1.books
      = seeded.books.filter (fun b => !(b.id == "3")) := by
  exact ((claim3_delete_book seeded "3").2.2 (by decide)).1

/-- **C4.** `save()` followed by `load()` into a fresh store reproduces an
identical catalog and loan-record list: every book keeps its id, title,
author and copies, every record its user, book and due date.  The hypothesis
— catalogued ids are pairwise distinct — is the invariant every reachable
state satisfies (`inv_run`). -/
theorem claim4_save_load_round_trip (s : LibraryManager)
    (hnodup : (s.books.map Book.id).Nodup) :
    ∀ f, s.save_data.data_file = some f →
      (load_data (some f)).books = s.books ∧
      (load_data (some f)).borrowed_records = s.borrowed_records := by
  intro f hf
  have hfe : f = ⟨s.books, s.borrowed_records⟩ := by
    have : some (⟨s.books, s.borrowed_records⟩ : SavedData) = some f := hf
    injection this with h
    exact h.symm
  subst hfe
  refine ⟨?_, rfl⟩
  show s.books.foldl dictInsert [] = s.books
  have hstart : ∀ b ∈ s.books, hasBookId [] b.id = false := fun _ _ => rfl
  simpa using foldl_dictInsert s.books [] hstart hnodup

theorem claim4_witness :
    (load_data (some ⟨seeded.books, seeded.borrowed_records⟩)).books = seeded.books ∧
    (load_data (some ⟨seeded.books, seeded.borrowed_records⟩)).borrowed_records
      = seeded.borrowed_records := by
  exact claim4_save_load_round_trip seeded (by decide) _ rfl

/-- **C5.** No user ever holds more than 3 simultaneous loan records after any
sequence of `LibraryStore` operations starting from the seeded initial
state. -/
theorem claim5_user_loan_cap (ops : List Op) (u : String) :
    (run seeded ops).borrowed_records.countP (fun r => r.user_id == u) ≤ 3 :=
  (inv_run seeded inv_seeded ops).userCap u

/-- **C6.** `return_book(book_id, user_id)` succeeds exactly when some loan
record matches both user and book; on success it removes precisely the first
matching record (`eraseP`), keeps the catalog, persists, and the borrowed
count of the book drops by exactly one — so availability rises by exactly
one; otherwise it reports the not-found condition and changes nothing. -/
theorem claim6_return_book (s : LibraryManager) (bid uid : String) :
    ((s.return_book bid (some uid)).2 = ReturnResult.success ↔
      ∃ r ∈ s.borrowed_records, r.user_id = uid ∧ r.book_id = bid) ∧
    ((s.return_book bid (some uid)).2 ≠ ReturnResult.success →
      (s.return_book bid (some uid)).2 = ReturnResult.noRecord ∧
      (s.return_book bid (some uid)).1 = s) ∧
    ((s.return_book bid (some uid)).2 = ReturnResult.success →
      (s.return_book bid (some uid)).1.books = s.books ∧
      (s.return_book bid (some uid)).1.borrowed_records
        = s.borrowed_records.eraseP (fun r => r.user_id == uid && r.book_id == bid) ∧
      (s.return_book bid (some uid)).1.data_file
        = some ⟨s.books,
            s.borrowed_records.eraseP (fun r => r.user_id == uid && r.book_id == bid)⟩ ∧
      (s.return_book bid (some uid)).1.get_borrowed_count bid + 1
        = s.get_borrowed_count bid) := by
  rcases return_book_cases s bid uid with ⟨hfind, he⟩ | ⟨r, hfind, he⟩
  · rw [he]
    refine ⟨iff_of_false (by simp) ?_, fun _ => ⟨rfl, rfl⟩, fun hc => absurd hc (by simp)⟩
    rintro ⟨r, hr, hu, hb⟩
    have := List.find?_eq_none.mp hfind r hr
    simp [hu, hb] at this
  · rw [he]
    have hP := List.find?_some hfind
    simp only [Bool.and_eq_true, beq_iff_eq] at hP
    have hmem : r ∈ s.borrowed_records := List.mem_of_find?_eq_some hfind
    have herase : s.borrowed_records.erase r
        = s.borrowed_records.eraseP (fun r => r.user_id == uid && r.book_id == bid) :=
      erase_of_find?_eq_some hfind
    refine ⟨iff_of_true rfl ⟨r, hmem, hP.1, hP.2⟩, fun hc => absurd rfl hc, fun _ => ?_⟩
    refine ⟨rfl, herase, ?_, ?_⟩
    · show some (⟨s.books, s.borrowed_records.erase r⟩ : SavedData) = _
      rw [herase]
    · show (s.borrowed_records.erase r).countP (fun x => x.book_id == bid) + 1
        = s.borrowed_records.countP (fun x => x.book_id == bid)
      rw [herase]
      have hq : (fun x : LoanRecord => x.book_id == bid) r = true := by
        simp [hP.2]
      rw [countP_of_find?_eq_some hfind, if_pos hq]

theorem claim6_witness :
    ((run seeded [Op.borrowBook "3" (some "u1") 0]).return_book "3" (some "u1")).2
      = ReturnResult.success := by
  have h := claim6_return_book (run seeded [Op.borrowBook "3" (some "u1") 0]) "3" "u1"
  exact h.1.mpr (by decide)

/-- **C7.** `search_books(query)` returns exactly the books whose title or
author contains the query as a case-insensitive substring, each paired with
its computed availability, in catalog insertion order (filter preserves
order); the second conjunct ties the embedded `occursIn` (Python's `in`) to
the mathematical contiguous-substring relation. -/
theorem claim7_search_books (s : LibraryManager) (query : String) :
    s.search_books query
      = (s.books.filter (fun b => matchesQuery query.toLower b)).map
          (fun b => (b, b.copies - (s.get_borrowed_count b.id : Int))) ∧
    ∀ needle hay : List Char, occursIn needle hay = true ↔ needle <:+: hay :=
  ⟨searchLoop_eq s query.toLower s.books, occursIn_iff⟩

/-- **C8.** With no data file, `load_data` seeds exactly the three fixed
sample books with copies 3, 5, 1 and no loan records, and the report on that
state gives totalUniqueBooks = 3, totalCopies = 9, totalIssued = 0 and
overdue = 0 for every value of today (overdue counts records with
`due_date < today`). -/
theorem claim8_seeded_report :
    (load_data none).books = initial_books ∧
    initial_books.map (fun b => b.copies) = [3, 5, 1] ∧
    (load_data none).borrowed_records = [] ∧
    ∀ today : Nat, (load_data none).generate_simple_report today
      = { total_unique_books := 3, total_copies := 9, total_issued := 0,
          overdue_count := 0 } :=
  ⟨rfl, rfl, rfl, fun _ => rfl⟩

/-- **C9 counterexample.** The claim fails on `LibraryManager.add_book`
itself: called with a zero copy count it inserts the book into the catalog
and persists — there is no validation inside `add_book`. -/
theorem claim9_counterexample :
    (seeded.add_book "Ghost" "Nobody" 0).1.books ≠ seeded.books ∧
    (seeded.add_book "Ghost" "Nobody" 0).1.data_file ≠ seeded.data_file ∧
    (⟨mkId 0, "Ghost", "Nobody", 0⟩ : Book) ∈ (seeded.add_book "Ghost" "Nobody" 0).1.books := by
  decide

/-- **C9 (amended).** The zero/negative-copy validation lives in the staff
add-book menu, not in `add_book`: the menu re-prompts on every non-positive
count and only ever calls `add_book` with a positive one, so every book in
the catalog after the menu either was already there or has positive copies;
with no acceptable input the store is untouched. -/
theorem claim9_amended_menu_validation (s : LibraryManager) (title author : String)
    (inputs : List Int) :
    (∀ b ∈ (staff_add_book_menu s title author inputs).books,
        b ∈ s.books ∨ 0 < b.copies) ∧
    (firstValidCopies inputs = none → staff_add_book_menu s title author inputs = s) ∧
    (∀ c, firstValidCopies inputs = some c → 0 < c ∧
        staff_add_book_menu s title author inputs = (s.add_book title author c).1) := by
  have hpos : ∀ (l : List Int) (c : Int), firstValidCopies l = some c → 0 < c := by
    intro l
    induction l with
    | nil =>
      intro c hc
      simp [firstValidCopies] at hc
    | cons a t ih =>
      intro c hc
      by_cases ha : a ≤ 0
      · rw [firstValidCopies, if_pos ha] at hc
        exact ih c hc
      · rw [firstValidCopies, if_neg ha] at hc
        injection hc with hc
        omega
  refine ⟨?_, ?_, ?_⟩
  · intro b hb
    cases hfc : firstValidCopies inputs with
    | none =>
      rw [staff_add_book_menu, hfc] at hb
      exact Or.inl hb
    | some c =>
      rw [staff_add_book_menu, hfc] at hb
      have hb' : b ∈ dictInsert s.books ⟨mkId s.next_uuid, title, author, c⟩ := hb
      rcases mem_dictInsert hb' with h | h
      · exact Or.inl h
      · refine Or.inr ?_
        rw [h]
        exact hpos inputs c hfc
  · intro h
    rw [staff_add_book_menu, h]
  · intro c hc
    refine ⟨hpos inputs c hc, ?_⟩
    rw [staff_add_book_menu, hc]

theorem claim9_witness :
    (⟨mkId 0, "Dune", "Herbert", 2⟩ : Book) ∈ seeded.books ∨
      0 < (⟨mkId 0, "Dune", "Herbert", 2⟩ : Book).copies := by
  have h := claim9_amended_menu_validation seeded "Dune" "Herbert" [0, 2]
  exact h.1 ⟨mkId 0, "Dune", "Herbert", 2⟩ (by decide)

/-- **C10.** Calling `borrow_book` or `return_book` with `user_id = None`
returns immediately: no loan record is created or removed, the catalog is
untouched and nothing is persisted — the whole state is unchanged. -/
theorem claim10_none_user_noop (s : LibraryManager) (book_id : String) (today : Nat) :
    s.borrow_book book_id none today = (s, BorrowResult.noUser) ∧
    s.return_book book_id none = (s, ReturnResult.noUser) :=
  ⟨rfl, rfl⟩

end Library
